import Mathlib

/-!
Shallow embedding of the data-flow tracer in `exercise8/analysis.py`.

The tracer walks a parsed Python module: it collects assignments per lexical
scope, partially evaluates literal and arithmetic or comparison expressions
against a symbol environment, and reconstructs the chain of values the
module-level name `val2` takes through the call to `simpleCalculator`.

The syntax-tree front end (`ast.parse`) is the external collaborator: the
embedding starts from an already-built tree.  Machine details that never
arise in the traced programs (float and bytes constants, and the exact
`ast.dump` text inside error messages) are outside the embedding; error
*kinds* (`ValueError` / `TypeError` / `KeyError` / `IndexError`) are modelled
exactly, because `generate_flow` catches only `ValueError`.
-/

namespace Exercise8

/-- Python runtime values the analyzer can produce: ints, bools, strings,
`None`, and tuples of such (the value kinds reachable from `ast.Constant`,
unary minus, literal tuples, `+`/`-` and comparisons). -/
inductive Value where
  | vint (n : Int)
  | vbool (b : Bool)
  | vstr (s : String)
  | vnone
  | vtuple (elts : List Value)
  deriving Repr

mutual
/-- Python `==` on embedded values: bools coerce to ints, tuples compare
elementwise, values of unrelated types compare unequal. -/
def pyEq : Value → Value → Bool
  | .vint m, .vint n => m == n
  | .vint m, .vbool b => m == (if b then 1 else 0)
  | .vbool b, .vint n => (if b then (1 : Int) else 0) == n
  | .vbool a, .vbool b => a == b
  | .vstr a, .vstr b => a == b
  | .vnone, .vnone => true
  | .vtuple a, .vtuple b => pyEqList a b
  | _, _ => false

/-- Elementwise Python `==` on tuples (lengths must agree). -/
def pyEqList : List Value → List Value → Bool
  | [], [] => true
  | a :: as₁, b :: bs => pyEq a b && pyEqList as₁ bs
  | _, _ => false
end

/-- Python exceptions the analyzer can raise.  `valueError` carries the
message (the analyzer raises `ValueError` with fixed prefixes; the `ast.dump`
payload of evaluator messages is elided). -/
inductive PyErr where
  | valueError (msg : String)
  | typeError
  | keyError (nm : String)
  | indexError
  deriving Repr, DecidableEq

/-- Python unary `-` on embedded values: ints negate, bools coerce to int,
anything else raises `TypeError`. -/
def pyNeg : Value → Except PyErr Value
  | .vint n => .ok (.vint (-n))
  | .vbool b => .ok (.vint (-(if b then 1 else 0)))
  | _ => .error .typeError

/-- Python `+` on embedded values: numeric addition (bools coerce), string
concatenation, tuple concatenation; mixed kinds raise `TypeError`. -/
def pyAdd : Value → Value → Except PyErr Value
  | .vint m, .vint n => .ok (.vint (m + n))
  | .vint m, .vbool b => .ok (.vint (m + (if b then 1 else 0)))
  | .vbool b, .vint n => .ok (.vint ((if b then 1 else 0) + n))
  | .vbool a, .vbool b => .ok (.vint ((if a then 1 else 0) + (if b then 1 else 0)))
  | .vstr a, .vstr b => .ok (.vstr (a ++ b))
  | .vtuple a, .vtuple b => .ok (.vtuple (a ++ b))
  | _, _ => .error .typeError

/-- Python `-` (binary) on embedded values: numeric only (bools coerce);
anything else raises `TypeError`. -/
def pySub : Value → Value → Except PyErr Value
  | .vint m, .vint n => .ok (.vint (m - n))
  | .vint m, .vbool b => .ok (.vint (m - (if b then 1 else 0)))
  | .vbool b, .vint n => .ok (.vint ((if b then 1 else 0) - n))
  | .vbool a, .vbool b => .ok (.vint ((if a then 1 else 0) - (if b then 1 else 0)))
  | _, _ => .error .typeError

/-- Python truthiness of an embedded value (used by `if` tests). -/
def pyTruthy : Value → Bool
  | .vint n => n != 0
  | .vbool b => b
  | .vstr s => s ≠ ""
  | .vnone => false
  | .vtuple elts => !elts.isEmpty

mutual
/-- Python `repr` of an embedded value (string escaping simplified to plain
single quotes; no traced program puts a string into the flow chain). -/
def pyRepr : Value → String
  | .vint n => toString n
  | .vbool b => if b then "True" else "False"
  | .vstr s => "'" ++ s ++ "'"
  | .vnone => "None"
  | .vtuple [x] => "(" ++ pyRepr x ++ ",)"
  | .vtuple elts => "(" ++ ", ".intercalate (pyReprList elts) ++ ")"

/-- Reprs of the elements of a tuple, in order. -/
def pyReprList : List Value → List String
  | [] => []
  | v :: rest => pyRepr v :: pyReprList rest
end

/-- Python `str` of an embedded value: the string itself for strings,
otherwise `repr`. -/
def pyStr : Value → String
  | .vstr s => s
  | v => pyRepr v

/-- Unary operator kinds of `ast.unaryop` (only `USub` is supported by the
evaluators; the others fall through to the unsupported-node error). -/
inductive UnaryOpKind where
  | usub | uadd | notOp
  deriving Repr, DecidableEq

/-- Binary operator kinds of `ast.operator` relevant here (`Add`/`Sub`
supported, `Mult`/`Div` representative unsupported operators). -/
inductive BinOpKind where
  | add | sub | mult | div
  deriving Repr, DecidableEq

/-- Comparison operator kinds of `ast.cmpop` (`Eq`/`NotEq` supported, the
orderings representative unsupported operators). -/
inductive CmpOpKind where
  | eq | ne | lt | gt
  deriving Repr, DecidableEq

/-- Expression nodes of the `ast` subset the analyzer touches.  `compare`
carries the full `ops`/`comparators` lists exactly as `ast.Compare` does. -/
inductive Expr where
  | constant (v : Value)
  | name (id : String)
  | unaryOp (op : UnaryOpKind) (operand : Expr)
  | binOp (left : Expr) (op : BinOpKind) (right : Expr)
  | compare (left : Expr) (ops : List CmpOpKind) (comparators : List Expr)
  | call (func : Expr) (args : List Expr)
  | tuple (elts : List Expr)
  deriving Repr

/-- Statement nodes of the `ast` subset the analyzer touches.  `ifStmt` and
`whileStmt` carry `body` and `orelse` as `ast.If` / `ast.While` do;
`exprStmt` stands for any other statement kind (an expression statement). -/
inductive Stmt where
  | assign (targets : List Expr) (value : Expr)
  | ifStmt (test : Expr) (body : List Stmt) (orelse : List Stmt)
  | ret (value : Option Expr)
  | functionDef (nm : String) (args : List String) (body : List Stmt)
  | whileStmt (test : Expr) (body : List Stmt) (orelse : List Stmt)
  | exprStmt (value : Expr)
  deriving Repr

/-- Python `dict` modelled as an insertion-ordered association list:
`lookupA` finds the first (unique) binding of a key. -/
def lookupA {α : Type} : List (String × α) → String → Option α
  | [], _ => none
  | (k, v) :: rest, key => if k = key then some v else lookupA rest key

/-- Python `dict` update `d[key] = v`: replace in place when the key exists,
append otherwise (insertion order preserved). -/
def insertA {α : Type} : List (String × α) → String → α → List (String × α)
  | [], key, v => [(key, v)]
  | (k, w) :: rest, key, v =>
      if k = key then (k, v) :: rest else (k, w) :: insertA rest key v

/-- Symbol environment: name → resolved value (a Python dict). -/
abbrev Env := List (String × Value)

mutual
/-- `DataFlowAnalyzer._evaluate_literal`: accepts a `Constant`, a `USub`
unary operation over a literal, or a literal `Tuple`; every other node kind
raises the unsupported-literal `ValueError`.  The negation itself uses host
semantics and can raise `TypeError`. -/
def evaluate_literal : Expr → Except PyErr Value
  | .constant v => .ok v
  | .unaryOp .usub operand => do
      let v ← evaluate_literal operand
      pyNeg v
  | .tuple elts => do
      let vs ← evaluate_literal_elts elts
      .ok (.vtuple vs)
  | _ => .error (.valueError "Unsupported literal node")

/-- The generator expression `tuple(self._evaluate_literal(elt) for elt in
node.elts)`: elements evaluated left to right, first error propagates. -/
def evaluate_literal_elts : List Expr → Except PyErr (List Value)
  | [] => .ok []
  | e :: rest => do
      let v ← evaluate_literal e
      let vs ← evaluate_literal_elts rest
      .ok (v :: vs)
end

/-- `DataFlowAnalyzer._evaluate_expression` (with `_evaluate_compare`
inlined at the `Compare` branch, exactly as the dispatch happens in the
source): names resolve against the environment (`KeyError` when absent),
constants yield their value, `USub` negates, `BinOp` evaluates both operands
before dispatching on the operator (`Add`/`Sub` supported), `Compare`
evaluates the left side, then `comparators[0]`, then dispatches on `ops[0]`
(`Eq`/`NotEq` supported; further operators and comparators are ignored);
any other node kind raises the unsupported-expression `ValueError`.
Note there is no `Tuple` branch here. -/
def evaluate_expression : Expr → Env → Except PyErr Value
  | .name id, env =>
      match lookupA env id with
      | some v => .ok v
      | none => .error (.keyError id)
  | .constant v, _ => .ok v
  | .unaryOp .usub operand, env => do
      let v ← evaluate_expression operand env
      pyNeg v
  | .binOp left op right, env => do
      let lv ← evaluate_expression left env
      let rv ← evaluate_expression right env
      match op with
      | .add => pyAdd lv rv
      | .sub => pySub lv rv
      | _ => .error (.valueError "Unsupported binary operation")
  | .compare left ops comparators, env => do
      let lv ← evaluate_expression left env
      match comparators with
      | [] => .error .indexError
      | c :: _ => do
          let rv ← evaluate_expression c env
          match ops with
          | [] => .error .indexError
          | op :: _ =>
              match op with
              | .eq => .ok (.vbool (pyEq lv rv))
              | .ne => .ok (.vbool (!pyEq lv rv))
              | _ => .error (.valueError "Unsupported comparison operator")
  | _, _ => .error (.valueError "Unsupported expression node")

/-- Python `value is None`: identity with the `None` singleton. -/
def Value.isNone : Value → Bool
  | .vnone => true
  | _ => false

/-- `_target_to_name`: a `Name` target yields its identifier, every other
target kind yields `None` (and is skipped by the callers). -/
def target_to_name : Expr → Option String
  | .name id => some id
  | _ => none

mutual
/-- `_expression_contains_name`: `ast.walk` over the value node, true when
any descendant (or the node itself) is a `Name` whose id is the target. -/
def expression_contains_name : Expr → String → Bool
  | .name id, t => id == t
  | .constant _, _ => false
  | .unaryOp _ operand, t => expression_contains_name operand t
  | .binOp l _ r, t => expression_contains_name l t || expression_contains_name r t
  | .compare l _ comps, t => expression_contains_name l t || exprs_contain_name comps t
  | .call f args, t => expression_contains_name f t || exprs_contain_name args t
  | .tuple elts, t => exprs_contain_name elts t

/-- Walk of a child list of expression nodes. -/
def exprs_contain_name : List Expr → String → Bool
  | [], _ => false
  | e :: rest, t => expression_contains_name e t || exprs_contain_name rest t
end

/-- `_handle_assignment`: compute the target names, evaluate the value
expression, bind every `Name` target in the environment; the evaluated value
is surfaced (second component) only when some target is literally `res` and
the value expression contains a `v2` reference, otherwise Python returns
`None` — the embedding returns `vnone`, preserving the source's conflation
of "no qualifying result" with a result that is itself `None`. -/
def handle_assignment (targets : List Expr) (value : Expr) (env : Env) :
    Except PyErr (Env × Value) := do
  let target_names := targets.map target_to_name
  let v ← evaluate_expression value env
  let env' := target_names.foldl
    (fun e n? => match n? with | some nm => insertA e nm v | none => e) env
  if target_names.contains (some "res") && expression_contains_name value "v2" then
    .ok (env', v)
  else
    .ok (env', .vnone)

/-- The inner `for inner in branch` loop of `_evaluate_res_assignment`:
inside a taken branch only `Assign` and `Return` statements are handled
(anything else — including a nested `If` — is skipped).  The result is the
updated environment plus `some v` when the loop returned early (a qualifying
assignment or any `Return`), `none` when the branch fell through. -/
def res_branch_walk : List Stmt → Env → Except PyErr (Env × Option Value)
  | [], env => .ok (env, none)
  | .assign targets value :: rest, env => do
      let (env', v) ← handle_assignment targets value env
      if v.isNone then res_branch_walk rest env' else .ok (env', some v)
  | .ret (some e) :: _, env => do
      let v ← evaluate_expression e env
      .ok (env, some v)
  | .ret none :: _, env => .ok (env, some .vnone)
  | _ :: rest, env => res_branch_walk rest env

/-- `_evaluate_res_assignment` over the callee body (the source takes the
`FunctionDef` node and walks `func_def.body`; the embedding takes the body
list directly).  Top-level `Assign` statements are handled; an `If` has its
test evaluated and only the taken branch walked by `res_branch_walk`, after
which the walk continues past the `If` with the mutated environment; a
`Return` ends the walk with its evaluated value, `vnone` when bare.  Python
returns `None` when no qualifying assignment is found — embedded as
`vnone`. -/
def evaluate_res_assignment : List Stmt → Env → Except PyErr Value
  | [], _ => .ok .vnone
  | .assign targets value :: rest, env => do
      let (env', v) ← handle_assignment targets value env
      if v.isNone then evaluate_res_assignment rest env' else .ok v
  | .ifStmt test body orelse :: rest, env => do
      let tv ← evaluate_expression test env
      let (env', r) ← res_branch_walk (if pyTruthy tv then body else orelse) env
      match r with
      | some v => .ok v
      | none => evaluate_res_assignment rest env'
  | .ret (some e) :: _, env => evaluate_expression e env
  | .ret none :: _, _ => .ok .vnone
  | _ :: rest, env => evaluate_res_assignment rest env

/-- `_get_function_def`: first top-level `FunctionDef` with the requested
name; the source returns the node, the embedding the `(args, body)` pair the
caller reads off it. -/
def get_function_def : List Stmt → String → Option (List String × List Stmt)
  | [], _ => none
  | .functionDef n args body :: rest, nm =>
      if n == nm then some (args, body) else get_function_def rest nm
  | _ :: rest, nm => get_function_def rest nm

/-- The `isinstance(node.value, ast.Call)` plus
`isinstance(call.func, ast.Name) and call.func.id == func_name` test of
`_find_function_call_assignment`. -/
def call_matches (nm : String) : Expr → Bool
  | .call (.name f) _ => f == nm
  | _ => false

/-- The inner `for stmt in node.body` loop of
`_find_function_call_assignment`: scans only the direct statements of the
`If` body (never `orelse`, never deeper). -/
def find_call_in_branch (nm : String) : List Stmt → Option Stmt
  | [] => none
  | .assign targets value :: rest =>
      if call_matches nm value then some (.assign targets value)
      else find_call_in_branch nm rest
  | _ :: rest => find_call_in_branch nm rest

/-- `_find_function_call_assignment`: scans top-level statements in source
order; an `Assign` whose value is a call to the function is returned, and
for each top-level `If` the true-branch body is scanned (one level deep,
without evaluating the test) before moving on. -/
def find_function_call_assignment (nm : String) : List Stmt → Option Stmt
  | [] => none
  | .assign targets value :: rest =>
      if call_matches nm value then some (.assign targets value)
      else find_function_call_assignment nm rest
  | .ifStmt _ body _ :: rest =>
      match find_call_in_branch nm body with
      | some s => some s
      | none => find_function_call_assignment nm rest
  | _ :: rest => find_function_call_assignment nm rest

/-- `_assignment_pairs`: a single tuple target assigned a tuple value of the
same arity pairs elementwise; otherwise every target is paired wholesale
with the whole value expression (including the arity-mismatch case, which
falls through to the broadcast loop). -/
def assignment_pairs : List Expr → Expr → List (Expr × Expr)
  | [.tuple telts], .tuple velts =>
      if telts.length = velts.length then telts.zip velts
      else [(.tuple telts, .tuple velts)]
  | targets, value => targets.map (fun t => (t, value))

/-- The `Record` dataclass (the diagnostic `expression` string produced by
`_to_source`/`ast.unparse` is elided: nothing in the analyzer reads it). -/
structure Record where
  scope : String
  target : String
  value_node : Expr
  deriving Repr

/-- The `_AssignmentCollector` state: `assignment_map` is the
`defaultdict(dict)` keyed by scope then target, `records` the flat ordered
list of collected assignments. -/
structure CState where
  assignment_map : List (String × List (String × Expr))
  records : List Record
  deriving Repr

/-- `self.assignment_map[scope][target_name] = value_node` on a
`defaultdict(dict)`, followed by `self.records.append(Record(...))`. -/
def push_pair (st : CState) (scope target : String) (value_node : Expr) : CState :=
  let inner := (lookupA st.assignment_map scope).getD []
  { assignment_map := insertA st.assignment_map scope (insertA inner target value_node)
    records := st.records ++ [⟨scope, target, value_node⟩] }

/-- `visit_Assign`: decompose the targets against the value with
`_assignment_pairs`, skip non-`Name` targets, record the rest under the
current scope. -/
def visit_assign (st : CState) (scope : String) (targets : List Expr) (value : Expr) : CState :=
  (assignment_pairs targets value).foldl
    (fun st' p =>
      match target_to_name p.1 with
      | some nm => push_pair st' scope nm p.2
      | none => st') st

mutual
/-- The `_AssignmentCollector` dispatch on one statement.
`visit_FunctionDef` pushes the function name as the scope for its body;
`visit_Assign` records and does not descend; every other statement kind has
no `visit_` handler, so `ast.NodeVisitor.generic_visit` descends into all
its child statements (an `If` or `While` body then `orelse`) in field
order.  Child expressions contain no statements, so visiting them is a
no-op and is elided. -/
def visit_stmt (scope : String) (st : CState) : Stmt → CState
  | .functionDef nm _ body => visit_stmts nm st body
  | .assign targets value => visit_assign st scope targets value
  | .ifStmt _ body orelse => visit_stmts scope (visit_stmts scope st body) orelse
  | .whileStmt _ body orelse => visit_stmts scope (visit_stmts scope st body) orelse
  | .ret _ => st
  | .exprStmt _ => st

/-- Visiting a statement list in order, threading the collector state. -/
def visit_stmts (scope : String) (st : CState) : List Stmt → CState
  | [] => st
  | s :: rest => visit_stmts scope (visit_stmt scope st s) rest
end

/-- `parse_assignments`: run the collector over the module tree, starting
from the scope stack `["module"]` and empty map and record list. -/
def parse_assignments (tree : List Stmt) : CState :=
  visit_stmts "module" ⟨[], []⟩ tree

/-- One waypoint of the flow chain: a resolved value or a variable name
(`flow_nodes` holds Python values and strings mixed). -/
inductive Waypoint where
  | val (v : Value)
  | nm (s : String)
  deriving Repr

/-- `str(node)` on a waypoint, as used by the final `"->".join`. -/
def waypoint_str : Waypoint → String
  | .val v => pyStr v
  | .nm s => s

/-- The module-environment bootstrap loop of `generate_flow`, threading the
environment being built: evaluate each module-scope assignment's value with
`_evaluate_literal`, skipping a binding only when that raises `ValueError`
(`except ValueError: continue`); any other exception — a `TypeError` from
negating a non-numeric literal — propagates. -/
def build_env_go : List (String × Expr) → Env → Except PyErr Env
  | [], env => .ok env
  | p :: rest, env =>
      match evaluate_literal p.2 with
      | .ok v => build_env_go rest (insertA env p.1 v)
      | .error (.valueError _) => build_env_go rest env
      | .error e => .error e

/-- The bootstrap loop started from the empty `module_env`. -/
def build_module_env (assigns : List (String × Expr)) : Except PyErr Env :=
  build_env_go assigns []

/-- `generate_flow`: bootstrap the module environment, resolve `val2`
(failing when it is absent or `None`), locate `simpleCalculator` and the
assignment calling it, evaluate the call arguments against the module
environment, bind them positionally (`dict(zip(param_names, arg_values))`),
append `"v2"` when the parameter equals the watched value (Python `==`),
symbolically execute the body for the `res` value (failing when that is
`None`), and join the waypoints with `"->"`. -/
def generate_flow (tree : List Stmt)
    (assignment_map : List (String × List (String × Expr))) : Except PyErr String := do
  let module_assigns := (lookupA assignment_map "module").getD []
  let module_env ← build_module_env module_assigns
  let val2_value := (lookupA module_env "val2").getD .vnone
  if val2_value.isNone then
    .error (.valueError "Could not resolve the initial value for val2")
  else
    match get_function_def tree "simpleCalculator" with
    | none => .error (.valueError "Function simpleCalculator not found")
    | some (param_names, body) =>
      match find_function_call_assignment "simpleCalculator" tree with
      | some (.assign _ (.call _ args)) => do
          let arg_values ← args.mapM (fun a => evaluate_expression a module_env)
          let param_env := (param_names.zip arg_values).foldl
            (fun e p => insertA e p.1 p.2) []
          let flow_nodes : List Waypoint :=
            if pyEq ((lookupA param_env "v2").getD .vnone) val2_value then
              [.val val2_value, .nm "val2", .nm "v2"]
            else
              [.val val2_value, .nm "val2"]
          let res_value ← evaluate_res_assignment body param_env
          if res_value.isNone then
            .error (.valueError "Could not resolve the value assigned to res")
          else
            .ok ("->".intercalate
              ((flow_nodes ++ ([.nm "res", .val res_value] : List Waypoint)).map waypoint_str))
      | _ => .error (.valueError "Call to simpleCalculator not found")

/-- `run_pipeline`: `parse_assignments` then `generate_flow` on the
collected map. -/
def run_pipeline (tree : List Stmt) : Except PyErr String :=
  generate_flow tree (parse_assignments tree).assignment_map

/-! Concrete source programs used by the scenario theorems, written as the
trees `ast.parse` produces for them. -/

/-- The calculator source of Scenario A:
`val2 = 5`, `def simpleCalculator(v2): res = v2 - 1; return res`,
`out = simpleCalculator(val2)`. -/
def srcA : List Stmt :=
  [ .assign [.name "val2"] (.constant (.vint 5)),
    .functionDef "simpleCalculator" ["v2"]
      [ .assign [.name "res"] (.binOp (.name "v2") .sub (.constant (.vint 1))),
        .ret (some (.name "res")) ],
    .assign [.name "out"] (.call (.name "simpleCalculator") [.name "val2"]) ]

/-- Scenario D source: the callee computes `res = v2 * 1`, an unsupported
binary operator in a required expression. -/
def srcD : List Stmt :=
  [ .assign [.name "val2"] (.constant (.vint 5)),
    .functionDef "simpleCalculator" ["v2"]
      [ .assign [.name "res"] (.binOp (.name "v2") .mult (.constant (.vint 1))),
        .ret (some (.name "res")) ],
    .assign [.name "out"] (.call (.name "simpleCalculator") [.name "val2"]) ]

/-- A module whose first assignment `x = -"a"` is not literal-evaluable and
raises `TypeError` (not `ValueError`) under `_evaluate_literal`. -/
def srcTypeErr : List Stmt :=
  [ .assign [.name "x"] (.unaryOp .usub (.constant (.vstr "a"))),
    .assign [.name "val2"] (.constant (.vint 5)),
    .functionDef "simpleCalculator" ["v2"]
      [ .assign [.name "res"] (.binOp (.name "v2") .sub (.constant (.vint 1))),
        .ret (some (.name "res")) ],
    .assign [.name "out"] (.call (.name "simpleCalculator") [.name "val2"]) ]

/-- A callee body whose only `res` assignment sits inside an `If` nested
within another `If`'s taken branch. -/
def bodyNestedIf : List Stmt :=
  [ .ifStmt (.constant (.vbool true))
      [ .ifStmt (.constant (.vbool true))
          [ .assign [.name "res"] (.binOp (.name "v2") .sub (.constant (.vint 1))) ]
          [] ]
      [] ]

/-- Scenario B callee body: an `If` comparing the parameter, each branch
assigning `res` differently. -/
def bodyBranches : List Stmt :=
  [ .ifStmt (.compare (.name "v2") [.eq] [.constant (.vint 5)])
      [ .assign [.name "res"] (.binOp (.name "v2") .sub (.constant (.vint 1))) ]
      [ .assign [.name "res"] (.binOp (.name "v2") .add (.constant (.vint 1))) ] ]

/-- A callee body that returns bare before any qualifying `res`
assignment. -/
def bodyBareReturn : List Stmt := [ .ret none ]

/-- Source whose callee returns bare: the symbolic execution result is
`None`. -/
def srcBareReturn : List Stmt :=
  [ .assign [.name "val2"] (.constant (.vint 5)),
    .functionDef "simpleCalculator" ["v2"] bodyBareReturn,
    .assign [.name "out"] (.call (.name "simpleCalculator") [.name "val2"]) ]

/-- A module-level `If` (with a statically false test) whose body assigns a
call to the target function, followed by a direct call assignment. -/
def srcCallUnderFalseIf : List Stmt :=
  [ .ifStmt (.compare (.constant (.vint 1)) [.eq] [.constant (.vint 2)])
      [ .assign [.name "a"] (.call (.name "simpleCalculator") [.constant (.vint 1)]) ]
      [],
    .assign [.name "b"] (.call (.name "simpleCalculator") [.constant (.vint 2)]) ]

/-- The only call assignment sits in the `orelse` branch of a top-level
`If`. -/
def srcCallInElse : List Stmt :=
  [ .ifStmt (.constant (.vbool true))
      []
      [ .assign [.name "a"] (.call (.name "simpleCalculator") [.constant (.vint 1)]) ] ]

/-- The only call assignment sits two conditional levels deep. -/
def srcCallTwoDeep : List Stmt :=
  [ .ifStmt (.constant (.vbool true))
      [ .ifStmt (.constant (.vbool true))
          [ .assign [.name "a"] (.call (.name "simpleCalculator") [.constant (.vint 1)]) ]
          [] ]
      [] ]

/-- A module-level `If` whose body assigns `x = 1`: the claim that the
collector skips it is settled against this tree. -/
def srcAssignUnderIf : List Stmt :=
  [ .ifStmt (.constant (.vbool true))
      [ .assign [.name "x"] (.constant (.vint 1)) ]
      [] ]

/-- A function definition nested inside a module-level `If`: its body
assignment is recorded under the function's own scope. -/
def srcFuncUnderIf : List Stmt :=
  [ .ifStmt (.constant (.vbool true))
      [ .functionDef "g" []
          [ .assign [.name "y"] (.constant (.vint 2)) ] ]
      [] ]

/-! Helper lemmas about the `Except` monad used throughout. -/

@[simp] theorem ok_bind {α β : Type} (a : α) (f : α → Except PyErr β) :
    (Except.ok a >>= f) = f a := rfl

@[simp] theorem error_bind {α β : Type} (e : PyErr) (f : α → Except PyErr β) :
    ((Except.error e : Except PyErr α) >>= f) = Except.error e := rfl

/-- C1: on the Scenario A source — `val2 = 5` at module scope, a function
body assigning `res = v2 - 1` and returning `res`, and one assignment
calling the function with `val2` — the full trace succeeds and returns
exactly the chain `5->val2->v2->res->4`. -/
theorem claim_C1 : run_pipeline srcA = .ok "5->val2->v2->res->4" := rfl

/-- Tuple-free members of the literal evaluator's supported set: a
`Constant` or a chain of unary negations over one. -/
def tuple_free_literal : Expr → Bool
  | .constant _ => true
  | .unaryOp .usub operand => tuple_free_literal operand
  | _ => false

/-- On tuple-free literal expressions the two evaluators agree exactly
(same value on success, same exception on failure): both return the
constant, or negate the recursive result with the same host semantics. -/
theorem literal_eval_agrees :
    ∀ e : Expr, tuple_free_literal e = true →
      evaluate_literal e = evaluate_expression e []
  | .constant _, _ => rfl
  | .unaryOp .usub operand, h => by
      have ih := literal_eval_agrees operand (by simpa [tuple_free_literal] using h)
      simp only [evaluate_literal, evaluate_expression, ih]
  | .unaryOp .uadd _, h => by simp [tuple_free_literal] at h
  | .unaryOp .notOp _, h => by simp [tuple_free_literal] at h
  | .name _, h => by simp [tuple_free_literal] at h
  | .binOp _ _ _, h => by simp [tuple_free_literal] at h
  | .compare _ _ _, h => by simp [tuple_free_literal] at h
  | .call _ _, h => by simp [tuple_free_literal] at h
  | .tuple _, h => by simp [tuple_free_literal] at h

/-- C2 counterexample: a literal `Tuple` is in the literal-only evaluator's
supported set and evaluates there, yet the general expression evaluator has
no `Tuple` branch and fails on it under the empty environment — so the
claimed equivalence (with both sides succeeding) is false at this input. -/
theorem claim_C2_counterexample :
    evaluate_literal (.tuple [.constant (.vint 1)]) = .ok (.vtuple [.vint 1]) ∧
    evaluate_expression (.tuple [.constant (.vint 1)]) [] =
      .error (.valueError "Unsupported expression node") :=
  ⟨rfl, rfl⟩

/-- C2 (amended): for every tuple-free expression of the literal-only
evaluator's supported set (a `Constant` or a unary negation of such), the
literal-only evaluator and the general expression evaluator under the empty
environment return identical results — equal values whenever either
succeeds; literal `Tuple`s evaluate only under the literal-only evaluator,
the general evaluator rejecting every `Tuple` node. -/
theorem claim_C2 (e : Expr) (h : tuple_free_literal e = true) :
    evaluate_literal e = evaluate_expression e [] :=
  literal_eval_agrees e h

/-- Witness for C2 at the concrete literal `-5`. -/
theorem claim_C2_witness :
    tuple_free_literal (.unaryOp .usub (.constant (.vint 5))) = true ∧
    evaluate_literal (.unaryOp .usub (.constant (.vint 5))) =
      evaluate_expression (.unaryOp .usub (.constant (.vint 5))) [] :=
  ⟨rfl, claim_C2 (.unaryOp .usub (.constant (.vint 5))) rfl⟩

/-- C3 counterexample: a chained comparison `1 == 1 == 2` (two operators,
two comparators) does not fail — the evaluator silently ignores everything
past the first operator and comparator and returns `1 == 1`, i.e. `True`. -/
theorem claim_C3_counterexample :
    evaluate_expression
      (.compare (.constant (.vint 1)) [.eq, .eq]
        [.constant (.vint 1), .constant (.vint 2)]) [] = .ok (.vbool true) :=
  rfl

/-- C3 (amended): for every `Compare` node whose first operator is equal or
not-equal, the evaluator returns the host `==` / `!=` of the evaluated left
side and the evaluated **first** comparator — whether or not further
operators and comparators are present; a chained comparison is therefore
not rejected but truncated to its first comparison. -/
theorem claim_C3 :
    (∀ (l c : Expr) (ops : List CmpOpKind) (cs : List Expr) (env : Env),
      evaluate_expression (.compare l (.eq :: ops) (c :: cs)) env =
        (evaluate_expression l env >>= fun a =>
          evaluate_expression c env >>= fun b =>
            .ok (.vbool (pyEq a b)))) ∧
    (∀ (l c : Expr) (ops : List CmpOpKind) (cs : List Expr) (env : Env),
      evaluate_expression (.compare l (.ne :: ops) (c :: cs)) env =
        (evaluate_expression l env >>= fun a =>
          evaluate_expression c env >>= fun b =>
            .ok (.vbool (!pyEq a b)))) :=
  ⟨fun _ _ _ _ _ => rfl, fun _ _ _ _ _ => rfl⟩

/-- C6: addition and subtraction evaluate both operands then apply the host
`+` / `-`; any other binary operator (multiplication, division) never
produces a value, and on the Scenario D source the whole trace fails with
the unsupported-operation error rather than substituting or skipping. -/
theorem claim_C6 :
    (∀ (l r : Expr) (env : Env),
      evaluate_expression (.binOp l .add r) env =
        (evaluate_expression l env >>= fun a =>
          evaluate_expression r env >>= fun b => pyAdd a b)) ∧
    (∀ (l r : Expr) (env : Env),
      evaluate_expression (.binOp l .sub r) env =
        (evaluate_expression l env >>= fun a =>
          evaluate_expression r env >>= fun b => pySub a b)) ∧
    (∀ (l r : Expr) (env : Env) (v : Value),
      evaluate_expression (.binOp l .mult r) env ≠ .ok v) ∧
    (∀ (l r : Expr) (env : Env) (v : Value),
      evaluate_expression (.binOp l .div r) env ≠ .ok v) ∧
    run_pipeline srcD = .error (.valueError "Unsupported binary operation") := by
  refine ⟨fun _ _ _ => rfl, fun _ _ _ => rfl, ?_, ?_, rfl⟩ <;>
  · intro l r env v
    show (evaluate_expression l env >>= fun a =>
      evaluate_expression r env >>= fun _ =>
        (.error (.valueError "Unsupported binary operation") : Except PyErr Value)) ≠ .ok v
    cases hl : evaluate_expression l env with
    | error e => simp
    | ok a =>
        cases hr : evaluate_expression r env with
        | error e => simp
        | ok b => simp

mutual
/-- Modelled from the spec: the per-statement rule of §4.3 step 7 applied
to one statement, "the same per-statement rule (assignment handling, nested
If handling, Return handling) applied recursively inside the taken branch".
Unlike the source's `_evaluate_res_assignment`, a nested `If` is descended
into recursively here. -/
def res_walk_claimed_stmt : Stmt → Env → Except PyErr (Env × Option Value)
  | .assign targets value, env => do
      let (env', v) ← handle_assignment targets value env
      if v.isNone then .ok (env', none) else .ok (env', some v)
  | .ifStmt test body orelse, env => do
      let tv ← evaluate_expression test env
      if pyTruthy tv then res_walk_claimed body env else res_walk_claimed orelse env
  | .ret (some e), env => do
      let v ← evaluate_expression e env
      .ok (env, some v)
  | .ret none, env => .ok (env, some .vnone)
  | _, env => .ok (env, none)

/-- Modelled from the spec: the statement-by-statement walk with the
recursive per-statement rule, stopping at the first discovered result or
return. -/
def res_walk_claimed : List Stmt → Env → Except PyErr (Env × Option Value)
  | [], env => .ok (env, none)
  | s :: rest, env => do
      let (env', r) ← res_walk_claimed_stmt s env
      match r with
      | some v => .ok (env', some v)
      | none => res_walk_claimed rest env'
end

/-- Modelled from the spec: the claim's reading of
`_evaluate_res_assignment` — walk the body with the recursive rule and
yield the discovered value, `None` when the walk falls through. -/
def evaluate_res_claimed (body : List Stmt) (env : Env) : Except PyErr Value :=
  (res_walk_claimed body env).map (fun p => p.2.getD .vnone)

/-- C5 counterexample: in a callee whose only `res` assignment sits inside
an `If` nested within the taken branch of another `If`, the source's walker
skips the nested `If` entirely and yields `None`, while the claimed
recursive rule would descend and discover `res = v2 - 1 = 4`. -/
theorem claim_C5_counterexample :
    evaluate_res_assignment bodyNestedIf [("v2", .vint 5)] = .ok .vnone ∧
    evaluate_res_claimed bodyNestedIf [("v2", .vint 5)] = .ok (.vint 4) :=
  ⟨rfl, rfl⟩

/-- C5 (amended): when an `If` statement is reached its test is evaluated
against the current environment and only the taken branch (body if true,
else-branch if false) is descended into, but inside that branch only
assignment and `Return` statements are handled — a nested `If` there is
skipped, not recursed into; a `Return` statement ends the walk immediately
and yields its evaluated expression, or `None` when bare.  Conjuncts: the
Scenario B branch selection on both truth values of the test; the skip rule
for a nested `If` inside a branch; and the `Return` rule at the top level
and inside a branch. -/
theorem claim_C5 :
    (evaluate_res_assignment bodyBranches [("v2", .vint 5)] = .ok (.vint 4) ∧
     evaluate_res_assignment bodyBranches [("v2", .vint 7)] = .ok (.vint 8)) ∧
    (∀ (t : Expr) (b e : List Stmt) (rest : List Stmt) (env : Env),
      res_branch_walk (.ifStmt t b e :: rest) env = res_branch_walk rest env) ∧
    (∀ (e : Expr) (rest : List Stmt) (env : Env),
      evaluate_res_assignment (.ret (some e) :: rest) env =
        evaluate_expression e env) ∧
    (∀ (rest : List Stmt) (env : Env),
      evaluate_res_assignment (.ret none :: rest) env = .ok .vnone) ∧
    (∀ (e : Expr) (rest : List Stmt) (env : Env),
      res_branch_walk (.ret (some e) :: rest) env =
        (evaluate_expression e env >>= fun v => .ok (env, some v))) ∧
    (∀ (rest : List Stmt) (env : Env),
      res_branch_walk (.ret none :: rest) env = .ok (env, some .vnone)) :=
  ⟨⟨rfl, rfl⟩, fun _ _ _ _ _ => rfl, fun _ _ _ => rfl, fun _ _ => rfl,
   fun _ _ _ => rfl, fun _ _ => rfl⟩

/-- A module-scope binding the bootstrap can process without propagating an
exception: its value either is literal-evaluable or raises the
unsupported-node `ValueError` (which the bootstrap catches); the remaining
possibility, `TypeError`, would escape. -/
def skippable (p : String × Expr) : Bool :=
  match evaluate_literal p.2 with
  | .ok _ => true
  | .error (.valueError _) => true
  | .error _ => false

/-- All module-scope bindings are processable without a propagating
exception. -/
def bootstrap_safe (assigns : List (String × Expr)) : Bool :=
  assigns.all skippable

/-- Modelled from the spec: "the resulting environment contains exactly the
literal-evaluable bindings" — fold the successful literal evaluations into
the environment, in order, skipping the rest. -/
def literal_env : List (String × Expr) → Env → Env
  | [], env => env
  | p :: rest, env =>
      match evaluate_literal p.2 with
      | .ok v => literal_env rest (insertA env p.1 v)
      | .error _ => literal_env rest env

/-- C7 counterexample: `x = -"a"` is not literal-evaluable (negating a
string raises `TypeError`), and the bootstrap does **not** skip it — the
error escapes the `except ValueError` handler and aborts the whole trace. -/
theorem claim_C7_counterexample :
    build_module_env [("x", .unaryOp .usub (.constant (.vstr "a")))] =
      .error .typeError ∧
    run_pipeline srcTypeErr = .error .typeError :=
  ⟨rfl, rfl⟩

/-- C7 (amended): the bootstrap skips exactly the bindings whose literal
evaluation raises the unsupported-node `ValueError`; when every binding is
either literal-evaluable or of that kind (no `TypeError` from negating a
non-numeric literal), the bootstrap succeeds and the resulting environment
contains exactly the literal-evaluable bindings, in order. -/
theorem claim_C7 :
    ∀ (assigns : List (String × Expr)),
      bootstrap_safe assigns = true →
        build_module_env assigns = .ok (literal_env assigns []) := by
  have go : ∀ (assigns : List (String × Expr)) (env : Env),
      bootstrap_safe assigns = true →
        build_env_go assigns env = .ok (literal_env assigns env) := by
    intro assigns
    induction assigns with
    | nil => intro env _; rfl
    | cons p rest ih =>
        intro env h
        rw [bootstrap_safe, List.all_cons, Bool.and_eq_true] at h
        have hp : skippable p = true := h.1
        have hr : bootstrap_safe rest = true := h.2
        cases hev : evaluate_literal p.2 with
        | ok v => simp [build_env_go, literal_env, hev, ih _ hr]
        | error e =>
            cases e with
            | valueError msg => simp [build_env_go, literal_env, hev, ih _ hr]
            | typeError => simp [skippable, hev] at hp
            | keyError nm => simp [skippable, hev] at hp
            | indexError => simp [skippable, hev] at hp
  intro assigns h
  exact go assigns [] h

/-- Witness for C7: a module with one literal binding and one call-valued
binding bootstraps to exactly the literal binding. -/
theorem claim_C7_witness :
    bootstrap_safe
      [("val2", .constant (.vint 5)),
       ("out", .call (.name "simpleCalculator") [.name "val2"])] = true ∧
    build_module_env
      [("val2", .constant (.vint 5)),
       ("out", .call (.name "simpleCalculator") [.name "val2"])] =
      .ok [("val2", .vint 5)] :=
  ⟨rfl,
   (claim_C7
      [("val2", .constant (.vint 5)),
       ("out", .call (.name "simpleCalculator") [.name "val2"])] rfl).trans rfl⟩

/-- Lookup of the last-write table entry for a scope and name, reading the
map the way `generate_flow` does (`assignment_map.get(scope, {})`). -/
def scope_lookup (st : CState) (scope nm : String) : Option Expr :=
  lookupA ((lookupA st.assignment_map scope).getD []) nm

/-- C8 counterexample: an assignment nested inside a module-level `If` body
**is** recorded by the collector (the inherited `generic_visit` descends
into every compound statement), under scope `module` — the claim says it
produces no record and no table entry. -/
theorem claim_C8_counterexample :
    (parse_assignments srcAssignUnderIf).records =
      [⟨"module", "x", .constant (.vint 1)⟩] ∧
    scope_lookup (parse_assignments srcAssignUnderIf) "module" "x" =
      some (.constant (.vint 1)) :=
  ⟨rfl, rfl⟩

/-- C8 (amended): the collection walk descends into **all** nested compound
statements (the `ast.NodeVisitor.generic_visit` default): an assignment
inside a module-level `If` or loop body is recorded under the scope of the
nearest enclosing function, or `module` outside all functions; statement
kinds with no handler are silently traversed and never raise. -/
theorem claim_C8 :
    (∀ (scope : String) (st : CState) (t : Expr) (b e : List Stmt),
      visit_stmt scope st (.ifStmt t b e) =
        visit_stmts scope (visit_stmts scope st b) e) ∧
    (∀ (scope : String) (st : CState) (t : Expr) (b e : List Stmt),
      visit_stmt scope st (.whileStmt t b e) =
        visit_stmts scope (visit_stmts scope st b) e) ∧
    (∀ (scope : String) (st : CState) (v : Expr),
      visit_stmt scope st (.exprStmt v) = st) ∧
    (∀ (scope : String) (st : CState) (v : Option Expr),
      visit_stmt scope st (.ret v) = st) ∧
    (parse_assignments srcFuncUnderIf).records =
      [⟨"g", "y", .constant (.vint 2)⟩] :=
  ⟨fun _ _ _ _ _ => rfl, fun _ _ _ _ _ => rfl, fun _ _ _ => rfl,
   fun _ _ _ => rfl, rfl⟩

/-- C9: whenever the earlier resolution steps all succeed and the symbolic
execution of the callee body yields the value `None` (a bare return, a
`return None`, or no qualifying `res` assignment — indistinguishable at
this interface), `generate_flow` raises the could-not-resolve error instead
of returning a chain. -/
theorem claim_C9
    (tree : List Stmt) (amap : List (String × List (String × Expr)))
    (menv : Env) (param_names : List String) (body : List Stmt)
    (targets : List Expr) (f : Expr) (args : List Expr) (arg_values : List Value)
    (h1 : build_module_env ((lookupA amap "module").getD []) = .ok menv)
    (h2 : ((lookupA menv "val2").getD .vnone).isNone = false)
    (h3 : get_function_def tree "simpleCalculator" = some (param_names, body))
    (h4 : find_function_call_assignment "simpleCalculator" tree =
            some (.assign targets (.call f args)))
    (h5 : args.mapM (fun a => evaluate_expression a menv) = .ok arg_values)
    (h6 : evaluate_res_assignment body
            ((param_names.zip arg_values).foldl (fun e p => insertA e p.1 p.2) [])
          = .ok .vnone) :
    generate_flow tree amap =
      .error (.valueError "Could not resolve the value assigned to res") := by
  simp only [generate_flow, h1, ok_bind, h2, h3, h4, h5, h6]
  simp [Value.isNone]

/-- Witness for C9: the bare-return source aborts with the
could-not-resolve error. -/
theorem claim_C9_witness :
    generate_flow srcBareReturn (parse_assignments srcBareReturn).assignment_map =
      .error (.valueError "Could not resolve the value assigned to res") :=
  claim_C9 srcBareReturn (parse_assignments srcBareReturn).assignment_map
    [("val2", .vint 5)] ["v2"] bodyBareReturn
    [.name "out"] (.name "simpleCalculator") [.name "val2"] [.vint 5]
    rfl rfl rfl rfl rfl rfl

/-- What `_find_function_call_assignment`'s inner loop can deliver for one
statement of an `If` body: a direct assignment whose value calls the
function, nothing else. -/
def branch_call_probe (nm : String) : Stmt → Option Stmt
  | .assign targets value =>
      if call_matches nm value then some (.assign targets value) else none
  | _ => none

/-- What the top-level scan can deliver for one statement: a matching call
assignment, or — for an `If`, ignoring its test and its `orelse` branch —
the first matching call assignment directly inside the `If` body. -/
def top_call_probe (nm : String) : Stmt → Option Stmt
  | .assign targets value =>
      if call_matches nm value then some (.assign targets value) else none
  | .ifStmt _ body _ => body.findSome? (branch_call_probe nm)
  | _ => none

/-- The inner loop is the first-hit scan of the body under
`branch_call_probe`. -/
theorem find_call_in_branch_eq (nm : String) :
    ∀ l : List Stmt, find_call_in_branch nm l = l.findSome? (branch_call_probe nm) := by
  intro l
  induction l with
  | nil => rfl
  | cons s rest ih =>
      cases s with
      | assign targets value =>
          by_cases hc : call_matches nm value = true
          · simp [find_call_in_branch, branch_call_probe, List.findSome?, hc]
          · simp [find_call_in_branch, branch_call_probe, List.findSome?,
              Bool.of_not_eq_true hc, ih]
      | ifStmt t b e => simpa [find_call_in_branch, branch_call_probe, List.findSome?] using ih
      | ret v => simpa [find_call_in_branch, branch_call_probe, List.findSome?] using ih
      | functionDef n a b => simpa [find_call_in_branch, branch_call_probe, List.findSome?] using ih
      | whileStmt t b e => simpa [find_call_in_branch, branch_call_probe, List.findSome?] using ih
      | exprStmt v => simpa [find_call_in_branch, branch_call_probe, List.findSome?] using ih

/-- C10: the call-site locator is exactly the first hit, in top-level
source order, of the probe that accepts a call assignment directly or looks
one level into an `If`'s true-branch body without evaluating its test —
hence a call assignment under a statically false conditional is selected,
and a call in an `orelse` branch or nested two conditionals deep is never
found (concrete conjuncts). -/
theorem claim_C10 :
    (∀ (nm : String) (tree : List Stmt),
      find_function_call_assignment nm tree = tree.findSome? (top_call_probe nm)) ∧
    find_function_call_assignment "simpleCalculator" srcCallUnderFalseIf =
      some (.assign [.name "a"] (.call (.name "simpleCalculator") [.constant (.vint 1)])) ∧
    find_function_call_assignment "simpleCalculator" srcCallInElse = none ∧
    find_function_call_assignment "simpleCalculator" srcCallTwoDeep = none := by
  refine ⟨?_, rfl, rfl, rfl⟩
  intro nm tree
  induction tree with
  | nil => rfl
  | cons s rest ih =>
      cases s with
      | assign targets value =>
          by_cases hc : call_matches nm value = true
          · simp [find_function_call_assignment, top_call_probe, List.findSome?, hc]
          · simp [find_function_call_assignment, top_call_probe, List.findSome?,
              Bool.of_not_eq_true hc, ih]
      | ifStmt t b e =>
          rw [find_function_call_assignment, find_call_in_branch_eq]
          cases hb : b.findSome? (branch_call_probe nm) with
          | some s => simp [top_call_probe, List.findSome?, hb]
          | none => simp [top_call_probe, List.findSome?, hb, ih]
      | ret v => simpa [find_function_call_assignment, top_call_probe, List.findSome?] using ih
      | functionDef n a b =>
          simpa [find_function_call_assignment, top_call_probe, List.findSome?] using ih
      | whileStmt t b e =>
          simpa [find_function_call_assignment, top_call_probe, List.findSome?] using ih
      | exprStmt v =>
          simpa [find_function_call_assignment, top_call_probe, List.findSome?] using ih

/-! Association-list lemmas for the collector invariant. -/

theorem lookupA_insertA_self {α : Type} :
    ∀ (m : List (String × α)) (k : String) (v : α),
      lookupA (insertA m k v) k = some v := by
  intro m k v
  induction m with
  | nil => simp [insertA, lookupA]
  | cons p rest ih =>
      by_cases hk : p.1 = k
      · simp [insertA, lookupA, hk]
      · simp [insertA, lookupA, hk, ih]

theorem lookupA_insertA_ne {α : Type} :
    ∀ (m : List (String × α)) (k k' : String) (v : α), k' ≠ k →
      lookupA (insertA m k v) k' = lookupA m k' := by
  intro m k k' v hne
  have hne' : ¬(k = k') := fun h => hne h.symm
  induction m with
  | nil => simp [insertA, lookupA, hne']
  | cons p rest ih =>
      obtain ⟨pk, pv⟩ := p
      by_cases hk : pk = k
      · subst hk
        simp [insertA, lookupA, hne']
      · by_cases hk' : pk = k'
        · simp [insertA, lookupA, hk, hk', hne]
        · simp [insertA, lookupA, hk, hk', ih]

theorem mem_insertA {α : Type} :
    ∀ (m : List (String × α)) (k : String) (v : α) (p : String × α),
      p ∈ insertA m k v → p ∈ m ∨ p = (k, v) := by
  intro m k v p
  induction m with
  | nil =>
      intro h
      rw [insertA, List.mem_singleton] at h
      exact Or.inr h
  | cons q rest ih =>
      obtain ⟨qk, qv⟩ := q
      by_cases hk : qk = k
      · intro h
        rw [insertA, if_pos hk] at h
        rcases List.mem_cons.mp h with h | h
        · exact Or.inr (by rw [h, hk])
        · exact Or.inl (List.mem_cons_of_mem _ h)
      · intro h
        rw [insertA, if_neg hk] at h
        rcases List.mem_cons.mp h with h | h
        · exact Or.inl (h ▸ List.mem_cons_self _ _)
        · rcases ih h with h' | h'
          · exact Or.inl (List.mem_cons_of_mem _ h')
          · exact Or.inr h'

theorem mem_keys_insertA {α : Type} (m : List (String × α)) (k : String) (v : α)
    (x : String) (h : x ∈ (insertA m k v).map Prod.fst) :
    x ∈ m.map Prod.fst ∨ x = k := by
  rw [List.mem_map] at h
  obtain ⟨p, hp, rfl⟩ := h
  rcases mem_insertA m k v p hp with h' | h'
  · exact Or.inl (List.mem_map_of_mem _ h')
  · exact Or.inr (by rw [h'])

/-- The keys of an association list are pairwise distinct. -/
def keys_nodup {α : Type} (m : List (String × α)) : Prop :=
  (m.map Prod.fst).Nodup

theorem keys_nodup_insertA {α : Type} :
    ∀ (m : List (String × α)) (k : String) (v : α),
      keys_nodup m → keys_nodup (insertA m k v) := by
  intro m k v
  induction m with
  | nil =>
      intro _
      simp [insertA, keys_nodup]
  | cons q rest ih =>
      obtain ⟨qk, qv⟩ := q
      intro h
      rw [keys_nodup, List.map_cons, List.nodup_cons] at h
      by_cases hk : qk = k
      · rw [keys_nodup, insertA, if_pos hk, List.map_cons, List.nodup_cons]
        exact ⟨h.1, h.2⟩
      · rw [keys_nodup, insertA, if_neg hk, List.map_cons, List.nodup_cons]
        refine ⟨fun hmem => ?_, ih h.2⟩
        rcases mem_keys_insertA rest k v qk hmem with h' | h'
        · exact h.1 h'
        · exact hk h'

theorem lookupA_some_mem {α : Type} :
    ∀ (m : List (String × α)) (k : String) (v : α),
      lookupA m k = some v → (k, v) ∈ m := by
  intro m k v
  induction m with
  | nil => intro h; simp [lookupA] at h
  | cons p rest ih =>
      obtain ⟨pk, pv⟩ := p
      by_cases hk : pk = k
      · intro h
        rw [lookupA, if_pos hk] at h
        obtain rfl : pv = v := Option.some.inj h
        subst hk
        exact List.mem_cons_self _ _
      · intro h
        rw [lookupA, if_neg hk] at h
        exact List.mem_cons_of_mem _ (ih h)

/-- The last-write table is well formed: scope keys are unique and so are
the name keys inside every scope. -/
def map_wf (amap : List (String × List (String × Expr))) : Prop :=
  keys_nodup amap ∧ ∀ p ∈ amap, keys_nodup p.2

/-- Value expression of the last collected record for a scope and name, in
visitation order. -/
def last_assigned (records : List Record) (scope nm : String) : Option Expr :=
  ((records.filter (fun r => r.scope == scope && r.target == nm)).getLast?).map
    Record.value_node

/-- Collector invariant: every (scope, name) table entry equals the value
of the last collected record for that pair, and all keys are unique. -/
def Inv (st : CState) : Prop :=
  (∀ scope nm, scope_lookup st scope nm = last_assigned st.records scope nm) ∧
  map_wf st.assignment_map

theorem last_assigned_append_self (records : List Record) (sc nm : String) (e : Expr) :
    last_assigned (records ++ [⟨sc, nm, e⟩]) sc nm = some e := by
  simp [last_assigned, List.filter_append]

theorem last_assigned_append_other (records : List Record) (sc nm sc' nm' : String)
    (e : Expr) (h : ¬(sc' = sc ∧ nm' = nm)) :
    last_assigned (records ++ [⟨sc, nm, e⟩]) sc' nm' = last_assigned records sc' nm' := by
  have hf : ((Record.mk sc nm e).scope == sc' && (Record.mk sc nm e).target == nm') = false := by
    by_cases h1 : sc = sc'
    · by_cases h2 : nm = nm'
      · exact absurd ⟨h1.symm, h2.symm⟩ h
      · simp [h2]
    · simp [h1]
  simp [last_assigned, List.filter_append, hf]

theorem scope_lookup_push_pair_self (st : CState) (sc nm : String) (e : Expr) :
    scope_lookup (push_pair st sc nm e) sc nm = some e := by
  simp [scope_lookup, push_pair, lookupA_insertA_self]

theorem scope_lookup_push_pair_other (st : CState) (sc nm sc' nm' : String) (e : Expr)
    (h : ¬(sc' = sc ∧ nm' = nm)) :
    scope_lookup (push_pair st sc nm e) sc' nm' = scope_lookup st sc' nm' := by
  by_cases h1 : sc' = sc
  · have h2 : nm' ≠ nm := fun hh => h ⟨h1, hh⟩
    subst h1
    simp [scope_lookup, push_pair, lookupA_insertA_self, lookupA_insertA_ne _ _ _ _ h2]
  · simp [scope_lookup, push_pair, lookupA_insertA_ne _ _ _ _ h1]

theorem inv_push_pair (st : CState) (sc nm : String) (e : Expr) (h : Inv st) :
    Inv (push_pair st sc nm e) := by
  obtain ⟨hlook, hout, hin⟩ := h
  refine ⟨?_, ?_, ?_⟩
  · intro sc' nm'
    by_cases hs : sc' = sc ∧ nm' = nm
    · obtain ⟨rfl, rfl⟩ := hs
      rw [scope_lookup_push_pair_self]
      show _ = last_assigned (st.records ++ [⟨sc', nm', e⟩]) sc' nm'
      rw [last_assigned_append_self]
    · rw [scope_lookup_push_pair_other st sc nm sc' nm' e hs]
      show _ = last_assigned (st.records ++ [⟨sc, nm, e⟩]) sc' nm'
      rw [last_assigned_append_other st.records sc nm sc' nm' e hs]
      exact hlook sc' nm'
  · exact keys_nodup_insertA _ _ _ hout
  · intro p hp
    rcases mem_insertA _ _ _ _ hp with h' | h'
    · exact hin p h'
    · rw [h']
      apply keys_nodup_insertA
      cases hl : lookupA st.assignment_map sc with
      | none => simp [hl, keys_nodup]
      | some inner =>
          have := hin (sc, inner) (lookupA_some_mem _ _ _ hl)
          simpa [hl] using this

theorem inv_foldl_push (scope : String) :
    ∀ (pairs : List (Expr × Expr)) (st : CState), Inv st →
      Inv (pairs.foldl
        (fun st' p =>
          match target_to_name p.1 with
          | some nm => push_pair st' scope nm p.2
          | none => st') st) := by
  intro pairs
  induction pairs with
  | nil => intro st h; exact h
  | cons p rest ih =>
      intro st h
      rw [List.foldl_cons]
      cases htn : target_to_name p.1 with
      | none => simpa [htn] using ih st h
      | some nm => simpa [htn] using ih _ (inv_push_pair st scope nm p.2 h)

theorem inv_visit_assign (st : CState) (scope : String) (targets : List Expr)
    (value : Expr) (h : Inv st) : Inv (visit_assign st scope targets value) :=
  inv_foldl_push scope (assignment_pairs targets value) st h

mutual
theorem inv_visit_stmt (scope : String) :
    ∀ (s : Stmt) (st : CState), Inv st → Inv (visit_stmt scope st s)
  | .functionDef nm _ body, st, h => inv_visit_stmts nm body st h
  | .assign targets value, st, h => inv_visit_assign st scope targets value h
  | .ifStmt _ body orelse, st, h =>
      inv_visit_stmts scope orelse _ (inv_visit_stmts scope body st h)
  | .whileStmt _ body orelse, st, h =>
      inv_visit_stmts scope orelse _ (inv_visit_stmts scope body st h)
  | .ret _, _, h => h
  | .exprStmt _, _, h => h

theorem inv_visit_stmts (scope : String) :
    ∀ (l : List Stmt) (st : CState), Inv st → Inv (visit_stmts scope st l)
  | [], _, h => h
  | s :: rest, st, h =>
      inv_visit_stmts scope rest _ (inv_visit_stmt scope s st h)
end

/-- C4: after the collection pass, for every input tree and every
(scope, name) pair the scope table's entry (read as `generate_flow` reads
it) equals the value expression of the last collected assignment record for
that pair in visitation order — in particular, of N sequential
reassignments only the Nth survives — and both the scope keys and the name
keys within each scope are unique (exactly one entry per pair). -/
theorem claim_C4 (tree : List Stmt) :
    (∀ scope nm, scope_lookup (parse_assignments tree) scope nm =
        last_assigned (parse_assignments tree).records scope nm) ∧
    map_wf (parse_assignments tree).assignment_map := by
  have hinit : Inv ⟨[], []⟩ :=
    ⟨fun _ _ => rfl, by simp [keys_nodup], by intro p hp; simp at hp⟩
  exact inv_visit_stmts "module" tree ⟨[], []⟩ hinit

end Exercise8
